import Mathlib

/-!
Verification development for the papermorph style-inference pipeline.

Shallow embedding of `backend/app/services/style_extractor.py`,
`backend/app/services/mapper.py` and `backend/app/services/formatter.py`.

Conventions of the embedding:
* Python `None` becomes `Option.none`; a span field that may be missing is an `Option`.
* Python numbers feeding `round` are modelled as exact rationals; Python 3
  `round` is round-half-to-even, modelled by `pyRound`.
* Python dicts with a fixed key set become structures; the degenerate empty
  profile dict returned for empty input becomes `Option.none`.
* `size_map` keys are `str(s)` for distinct integers `s`; since `str` is
  injective on integers the embedding keys the association list by the integer.
* Python string falsiness (empty string) and int falsiness (zero) are spelled
  out at each use site.
-/

namespace Papermorph

/-- ASCII part of Python whitespace, used by `str.strip` and the regex class \s. -/
def isPySpace (c : Char) : Bool :=
  c = ' ' || c = '\t' || c = '\n' || c = '\r' || c = Char.ofNat 11 || c = Char.ofNat 12

/-- Python `str.strip()`: drop leading and trailing whitespace. -/
def pyStrip (s : String) : String :=
  ⟨((s.toList.dropWhile isPySpace).reverse.dropWhile isPySpace).reverse⟩

/-- Python 3 `round` to an integer: round half to even. `Rat.floor` is the
computable floor, equal to `Int.floor` (see `ratFloor_eq` below). -/
def pyRound (q : ℚ) : ℤ :=
  let f : ℤ := Rat.floor q
  let r : ℚ := q - (f : ℚ)
  if r < 1/2 then f
  else if 1/2 < r then f + 1
  else if f % 2 = 0 then f else f + 1

/-- Does the needle occur at the start of the haystack (char lists)? -/
def leadsWith : List Char → List Char → Bool
  | [], _ => true
  | _ :: _, [] => false
  | p :: ps, c :: cs => p = c && leadsWith ps cs

/-- Does the needle occur as a contiguous sublist of the haystack?
Models the Python substring test `needle in haystack`. -/
def containsSub : List Char → List Char → Bool
  | p, [] => p.isEmpty
  | p, c :: cs => leadsWith p (c :: cs) || containsSub p cs

/-- A contiguous-substring predicate, used to state what `containsSub` decides. -/
def SubstrOf (p s : List Char) : Prop := ∃ u v, s = u ++ p ++ v

/-- List of text fragments concatenated, as Python string `+=` accumulation. -/
def strConcat (l : List String) : String := l.foldl (fun a b => a ++ b) ""

/-- Python `sep.join(parts)`. -/
def joinWith (sep : String) : List String → String
  | [] => ""
  | [x] => x
  | x :: y :: rest => x ++ sep ++ joinWith sep (y :: rest)

/-- Concatenation of the images of a list, keeping order. -/
def concatMap (f : α → List β) : List α → List β
  | [] => []
  | x :: rest => f x ++ concatMap f rest

/-- Keys of a sequence in first-occurrence order (Python dict / Counter key order). -/
def firstKeys [DecidableEq α] : List α → List α
  | [] => []
  | x :: xs => x :: (firstKeys xs).filter (fun y => y ≠ x)

/-- Number of occurrences of a key in a list. -/
def occCount [DecidableEq α] (l : List α) (x : α) : ℕ := l.countP (fun y => y = x)

/-- Python `Counter.most_common(k)`: pairs (key, count), counts descending,
ties kept in first-insertion order (the sort is stable), truncated to `k`. -/
def mostCommon [DecidableEq α] (l : List α) (k : ℕ) : List (α × ℕ) :=
  (((firstKeys l).map (fun x => (x, occCount l x))).insertionSort
    (fun a b => b.2 ≤ a.2)).take k

-- ---------------------------------------------------------------------------
-- style_extractor.py
-- ---------------------------------------------------------------------------

/-- Source constant BOLD_KEYWORDS. -/
def BOLD_KEYWORDS : List String :=
  ["Bold", "Bd", "BOLD", "Black", "Semibold", "SemiBold", "Heavy"]

/-- Source constant ITALIC_KEYWORDS. -/
def ITALIC_KEYWORDS : List String := ["Italic", "It", "Oblique", "Slanted"]

/-- Source constant BULLET_CANDIDATES (each Python entry is one character). -/
def BULLET_CANDIDATES : List Char := ['•', '-', '–', '—', '*', '·']

/-- Source `_is_bold_font`: empty name is falsy, otherwise substring scan. -/
def isBoldFont (fontName : String) : Bool :=
  if fontName = "" then false
  else BOLD_KEYWORDS.any (fun k => containsSub k.toList fontName.toList)

/-- Source `_is_italic_font`. -/
def isItalicFont (fontName : String) : Bool :=
  if fontName = "" then false
  else ITALIC_KEYWORDS.any (fun k => containsSub k.toList fontName.toList)

/-- Source `_round_size`: a missing or unparseable size gives None, otherwise
the rounded integer. Unparseable inputs are modelled by `none`. -/
def roundSize (n : Option ℚ) : Option ℤ := n.map pyRound

/-- One typographic span as produced by the extractor
(`{page, font, size, text, color}`; `color` is never read by the embedded
services, so it is omitted). -/
structure Span where
  page : ℤ
  font : Option String
  size : Option ℚ
  text : Option String
deriving Repr, DecidableEq

/-- Python `s.get("text") or ""`. -/
def textOf (s : Span) : String := s.text.getD ""

/-- Python `s.get("font") or "Unknown"` (None and the empty string are falsy). -/
def fontOrUnknown (o : Option String) : String :=
  match o with
  | some f => if f = "" then "Unknown" else f
  | none => "Unknown"

/-- Python truthiness of the rounded size (`if size:`): false for None and 0. -/
def truthySize (s : Span) : Bool :=
  match roundSize s.size with
  | some z => z ≠ 0
  | none => false

/-- The `sizes` list accumulated by `build_style_profile`: rounded sizes of the
spans whose rounded size is truthy, in input order. -/
def collectSizes : List Span → List ℤ
  | [] => []
  | s :: rest =>
    match roundSize s.size with
    | some z => if z ≠ 0 then z :: collectSizes rest else collectSizes rest
    | none => collectSizes rest

/-- The font-name sequence tallied into the `fonts` Counter. -/
def fontsSeq (spans : List Span) : List String :=
  spans.map (fun s => fontOrUnknown s.font)

/-- Entry `font_weight_info[f]["count"]`: spans of font `f` with truthy size. -/
def fontSizedCount (spans : List Span) (f : String) : ℕ :=
  spans.countP (fun s => fontOrUnknown s.font = f && truthySize s)

/-- Entry `font_weight_info[f]["bold_count"]`. -/
def fontBoldCount (spans : List Span) (f : String) : ℕ :=
  spans.countP (fun s =>
    fontOrUnknown s.font = f && truthySize s && isBoldFont (fontOrUnknown s.font))

/-- Entry `font_weight_info[f]["italic_count"]`. -/
def fontItalicCount (spans : List Span) (f : String) : ℕ :=
  spans.countP (fun s =>
    fontOrUnknown s.font = f && truthySize s && isItalicFont (fontOrUnknown s.font))

/-- Leading pattern `^[-\*•]\s+` of `_detect_bullet_from_texts`. -/
def matchDashLead (t : String) : Bool :=
  match t.toList with
  | c1 :: c2 :: _ => (c1 = '-' || c1 = '*' || c1 = '•') && isPySpace c2
  | _ => false

/-- Leading pattern `^\d+\.\s+` (shared by the extractor and the mapper regex;
the digit run is maximal, then a dot, then at least one whitespace). -/
def digitDotLead (t : String) : Bool :=
  let l := t.toList
  let ds := l.takeWhile Char.isDigit
  match l.drop ds.length with
  | '.' :: c :: _ => !ds.isEmpty && isPySpace c
  | _ => false

/-- Leading pattern `^[a-zA-Z]\)\s+`. -/
def letterParenLead (t : String) : Bool :=
  match t.toList with
  | c1 :: c2 :: c3 :: _ => c1.isAlpha && c2 = ')' && isPySpace c3
  | _ => false

/-- The `list_style` summary dict. -/
structure ListStyle where
  bullets : List Char
  numbered : Bool
  sampleCount : ℕ
deriving Repr, DecidableEq

/-- Loop body of `_detect_bullet_from_texts`: walks the spans keeping the
running nonempty-text count, the bullet-occurrence events in order, and the
numbered flag; stops after the count passes the sample limit of 200 (the
201st nonempty text increments the count but is not scanned). -/
def detectAux : List Span → ℕ → List Char → Bool → ℕ × List Char × Bool
  | [], count, occ, num => (count, occ, num)
  | s :: rest, count, occ, num =>
    let txt := pyStrip (textOf s)
    if txt = "" then detectAux rest count occ num
    else
      let count1 := count + 1
      if 200 < count1 then (count1, occ, num)
      else
        let first := txt.toList.headD ' '
        let occ1 := if first ∈ BULLET_CANDIDATES then occ ++ [first] else occ
        let occ2 := if matchDashLead txt then occ1 ++ [first] else occ1
        let num1 := num || digitDotLead txt || letterParenLead txt
        detectAux rest count1 occ2 num1

/-- Source `_detect_bullet_from_texts` (with the default sample limit 200). -/
def detectBulletFromTexts (spans : List Span) : ListStyle :=
  let r := detectAux spans 0 [] false
  ⟨(mostCommon r.2.1 3).map (fun p => p.1), r.2.2, r.1⟩

/-- The percentile threshold dict returned by `_size_percentiles`
(keys p90, p75, p50, p25, min, max). -/
structure Percs where
  p90 : ℤ
  p75 : ℤ
  p50 : ℤ
  p25 : ℤ
  sMin : ℤ
  sMax : ℤ
deriving Repr, DecidableEq

/-- Ascending sort (Python `sorted`). -/
def sortAsc (l : List ℤ) : List ℤ := l.insertionSort (fun a b => a ≤ b)

/-- Python `max` of a list (only applied to nonempty lists). -/
def listMax : List ℤ → ℤ
  | [] => 0
  | h :: t => t.foldl max h

/-- Python `min` of a list (only applied to nonempty lists). -/
def listMin : List ℤ → ℤ
  | [] => 0
  | h :: t => t.foldl min h

/-- Linear interpolation of `statistics.quantiles(method="exclusive")` at the
1-indexed position `j + delta/den` of a sorted list. -/
def interpVal (sorted : List ℤ) (den j delta : ℕ) : ℚ :=
  ((sorted.getD (j - 1) 0 : ℚ) * ((den : ℚ) - (delta : ℕ)) +
    (sorted.getD j 0 : ℚ) * ((delta : ℕ) : ℚ)) / (den : ℚ)

/-- CPython `statistics.quantiles(data, n=den)[i-1]` on sorted integer data:
`j, delta = divmod(i * (ld + 1), den)`, `j` clamped into `[1, ld-1]` with
`delta` kept, then linear interpolation between `data[j-1]` and `data[j]`.
Exact rational arithmetic models the int/int float division. -/
def quantileExc (sorted : List ℤ) (den i : ℕ) : ℚ :=
  let ld := sorted.length
  let m := ld + 1
  let j0 := (i * m) / den
  let delta := (i * m) % den
  let j := if j0 < 1 then 1 else if ld - 1 < j0 then ld - 1 else j0
  interpVal sorted den j delta

/-- CPython `statistics.median` on a sorted nonempty integer list. -/
def medianQ (sorted : List ℤ) : ℚ :=
  let n := sorted.length
  if n % 2 = 1 then (sorted.getD (n / 2) 0 : ℚ)
  else ((sorted.getD (n / 2 - 1) 0 : ℚ) + (sorted.getD (n / 2) 0 : ℚ)) / 2

/-- Source `_size_percentiles`. Notes kept from the Python:
* p90: true interpolated 90th percentile only with at least 100 samples,
  otherwise the maximum;
* p75: interpolated Q3 with at least 4 samples, otherwise the element at
  index `max(0, n-2)` (Lean natural subtraction matches `max(0, ...)`);
* p50: the rounded median;
* p25: `int(round(...))` of an integer element, which is that element. -/
def sizePercentilesFun (sizes : List ℤ) : Option Percs :=
  let sorted := sortAsc sizes
  if sorted.isEmpty then none
  else
    let n := sorted.length
    let p90 := if 100 ≤ n then pyRound (quantileExc sorted 100 90) else listMax sorted
    let p75 := if 4 ≤ n then pyRound (quantileExc sorted 4 3) else sorted.getD (n - 2) 0
    let p50 := pyRound (medianQ sorted)
    let p25 := sorted.getD (n / 4) 0
    some ⟨p90, p75, p50, p25, listMin sorted, listMax sorted⟩

/-- One `heading_rules` entry `{level, min_size}`. -/
structure HeadingRule where
  level : ℤ
  minSize : ℤ
deriving Repr, DecidableEq

/-- One `fonts_top` summary entry. -/
structure FontSummary where
  font : String
  count : ℕ
  boldPct : ℚ
  italicPct : ℚ
deriving Repr, DecidableEq

/-- One retained `sample_texts` entry (font, rounded size, stripped text). -/
structure SampleText where
  font : String
  size : Option ℤ
  text : String
deriving Repr, DecidableEq

/-- The style-profile dict built for a nonempty span list. The degenerate
empty profile `{}` of the Python code is `none` at the use sites. -/
structure ProfileData where
  fontsTop : List FontSummary
  sizePercentiles : Option Percs
  sizeMap : List (ℤ × String)
  headingRules : List HeadingRule
  listStyle : ListStyle
  sampleTexts : List SampleText
deriving Repr, DecidableEq

/-- Python `round(q, 1)` (half to even at the tenths place, exact arithmetic). -/
def round1 (q : ℚ) : ℚ := ((pyRound (q * 10) : ℤ) : ℚ) / 10

/-- `sorted(set(sizes), reverse=True)`: the distinct observed sizes descending. -/
def distinctDesc (l : List ℤ) : List ℤ :=
  (firstKeys l).insertionSort (fun a b => b ≤ a)

/-- The role the `size_map` loop assigns to one distinct size
(`if p90 and s >= p90: ... elif p75 and s >= p75: ... elif p50 and s >= p50`). -/
def thresholdRole (p90 p75 p50 z : ℤ) : String :=
  if p90 ≠ 0 ∧ p90 ≤ z then "H1"
  else if p75 ≠ 0 ∧ p75 ≤ z then "H2"
  else if p50 ≠ 0 ∧ p50 ≤ z then "H3"
  else "P"

/-- The collected `sample_texts`: the loop keeps a span exactly when fewer than
30 samples are stored and its stripped text is nonempty, so the retained spans
are the first 30 spans with nonempty stripped text (the final `[:30]` slice is
then a no-op). -/
def sampleSourceSpans (spans : List Span) : List Span :=
  (spans.filter (fun s => pyStrip (textOf s) ≠ "")).take 30

/-- The `sample_texts` field built from the retained spans. -/
def sampleTextsOf (spans : List Span) : List SampleText :=
  (sampleSourceSpans spans).map
    (fun s => ⟨fontOrUnknown s.font, roundSize s.size, pyStrip (textOf s)⟩)

/-- Source `build_style_profile`. The `heading_rules` fallbacks follow the
Python exactly: `int(p) if p else ...`, where the dict lookups
`percentiles.get("p50", ...)` and `percentiles.get("p25", ...)` always find
their key here (the percentile dict is nonempty on this branch), so the
`max(sizes)//2` and `max(sizes)//4` defaults are dead code. -/
def buildStyleProfile (spans : List Span) : Option ProfileData :=
  if spans.isEmpty then none
  else
    let sizes := collectSizes spans
    let fontsTop8 := mostCommon (fontsSeq spans) 8
    let percs := sizePercentilesFun sizes
    let sizeMap :=
      match percs with
      | none => []
      | some p =>
        (distinctDesc sizes).map (fun z => (z, thresholdRole p.p90 p.p75 p.p50 z))
    let headingRules :=
      match percs with
      | none => []
      | some p =>
        [⟨1, if p.p90 ≠ 0 then p.p90 else listMax sizes⟩,
         ⟨2, if p.p75 ≠ 0 then p.p75 else p.p50⟩,
         ⟨3, if p.p50 ≠ 0 then p.p50 else p.p25⟩]
    let fontsSummary := fontsTop8.map (fun fc =>
      let cnt := fontSizedCount spans fc.1
      { font := fc.1
        count := fc.2
        boldPct := if cnt ≠ 0 then round1 ((fontBoldCount spans fc.1 : ℚ) / (cnt : ℚ) * 100) else 0
        italicPct := if cnt ≠ 0 then round1 ((fontItalicCount spans fc.1 : ℚ) / (cnt : ℚ) * 100) else 0 })
    some
      { fontsTop := fontsSummary
        sizePercentiles := percs
        sizeMap := sizeMap
        headingRules := headingRules
        listStyle := detectBulletFromTexts spans
        sampleTexts := sampleTextsOf spans }

/-- Rule scan of `infer_role_for_span`: first rule whose `min_size` the size
meets or exceeds wins and yields `"H" + str(level)`. -/
def scanRules : List HeadingRule → ℤ → Option String
  | [], _ => none
  | r :: rest, z => if r.minSize ≤ z then some ("H" ++ toString r.level) else scanRules rest z

/-- Dict lookup in `size_map` (keys are distinct, so the first hit is the hit). -/
def assocLookup : List (ℤ × String) → ℤ → Option String
  | [], _ => none
  | p :: rest, z => if p.1 = z then some p.2 else assocLookup rest z

/-- Source `infer_role_for_span`: "P" for an unparseable or zero rounded size
or an empty profile; otherwise the rule scan, then the `size_map` lookup with
default "P". -/
def inferRoleForSpan (span : Span) (profile : Option ProfileData) : String :=
  match roundSize span.size, profile with
  | some z, some p =>
    if z = 0 then "P"
    else
      match scanRules p.headingRules z with
      | some r => r
      | none => (assocLookup p.sizeMap z).getD "P"
  | _, _ => "P"

-- ---------------------------------------------------------------------------
-- mapper.py
-- ---------------------------------------------------------------------------

/-- Leading pattern of LIST_LEAD_RE, `^(•|•|[-\*•]|\d+\.)\s+`:
a bullet character from the union of the alternatives, or a digit run and a
dot, followed by at least one whitespace. -/
def matchBulletLead (t : String) : Bool :=
  match t.toList with
  | c1 :: c2 :: _ => (c1 = '•' || c1 = '-' || c1 = '*') && isPySpace c2
  | _ => false

/-- Source `_is_list_line`. -/
def isListLine (text : String) : Bool :=
  if text = "" then false
  else
    let t := pyStrip text
    matchBulletLead t || digitDotLead t

/-- Source `_strip_list_lead`: `re.sub` removes the matched lead together with
the greedy whitespace run that follows; a non-matching text is returned
stripped but otherwise unchanged. -/
def stripListLead (text : String) : String :=
  let t := pyStrip text
  let l := t.toList
  if matchBulletLead t then ⟨(l.drop 1).dropWhile isPySpace⟩
  else if digitDotLead t then
    let ds := l.takeWhile Char.isDigit
    ⟨(l.drop (ds.length + 1)).dropWhile isPySpace⟩
  else t

/-- One inline run `{text, bold, italic}`. -/
structure Run where
  text : String
  bold : Bool
  italic : Bool
deriving Repr, DecidableEq

/-- The tagged content-node variants consumed by the renderer. -/
inductive NodeKind where
  | heading (level : ℤ) (text : String)
  | paragraph (text : String)
  | paragraphRuns (runs : List Run)
  | list (ordered : Bool) (items : List String)
  | table (rows : List (List String)) (header : Bool)
  | rawHtml (html : String)
deriving Repr, DecidableEq

/-- A content node: a variant plus the optional force-page-break flag
(`node.get("page_break_after")`, falsy when absent). -/
structure ContentNode where
  kind : NodeKind
  pageBreakAfter : Bool
deriving Repr, DecidableEq

/-- Python `int(role[1])` with the surrounding try/except: the second
character of the role as a digit, defaulting to level 1. -/
def parseLevel (role : String) : ℤ :=
  match role.toList with
  | _ :: c :: _ => if c.isDigit then ((c.toNat - '0'.toNat : ℕ) : ℤ) else 1
  | _ => 1

/-- Python `" ".join(para_buffer)` flushed into a paragraph node. -/
def paraNode (buf : List String) : ContentNode := ⟨.paragraph (joinWith " " buf), false⟩

/-- Loop of `build_content_structure_from_spans`, carrying the paragraph
buffer, the list buffer and the in-list flag; the final flush emits the list
buffer first and then the paragraph buffer. -/
def buildNodesAux (profile : Option ProfileData) :
    List Span → List String → List String → Bool → List ContentNode
  | [], para, listB, inL =>
    (if inL && !listB.isEmpty then [⟨.list false listB, false⟩] else []) ++
    (if !para.isEmpty then [paraNode para] else [])
  | s :: rest, para, listB, inL =>
    let role := inferRoleForSpan s profile
    let text := pyStrip (textOf s)
    if isListLine text then
      (if !para.isEmpty then [paraNode para] else []) ++
      buildNodesAux profile rest [] ((if inL then listB else []) ++ [stripListLead text]) true
    else
      (if inL then [⟨.list false listB, false⟩] else []) ++
      (if leadsWith "H".toList role.toList then
        (if !para.isEmpty then [paraNode para] else []) ++
        (⟨.heading (parseLevel role) text, false⟩ :: buildNodesAux profile rest [] [] false)
      else
        buildNodesAux profile rest (para ++ [text]) [] false)

/-- Source `build_content_structure_from_spans`. -/
def buildContentStructureFromSpans (spans : List Span) (profile : Option ProfileData) :
    List ContentNode :=
  if spans.isEmpty then [] else buildNodesAux profile spans [] [] false

-- ---------------------------------------------------------------------------
-- formatter.py
-- ---------------------------------------------------------------------------

/-- Image of one character under `html.escape(s, quote=True)`. The Python
sequential replaces (& first, then angle brackets, then quotes) equal this
character-wise map because replacement texts introduce only characters that
the later passes leave alone. -/
def escChar (c : Char) : List Char :=
  if c = '&' then "&amp;".toList
  else if c = '<' then "&lt;".toList
  else if c = '>' then "&gt;".toList
  else if c = Char.ofNat 34 then "&quot;".toList
  else if c = Char.ofNat 39 then "&#x27;".toList
  else [c]

/-- Escape a character list. -/
def escList : List Char → List Char
  | [] => []
  | c :: rest => escChar c ++ escList rest

/-- Source `_escape_text` (the argument is a real string here, so the
`t or ""` defaulting has already happened at the call sites). -/
def escapeText (t : String) : String := ⟨escList t.toList⟩

/-- Source `_build_css_from_profile`. String literals write a literal brace
as an escape and a literal apostrophe as an escape. -/
def buildCssFromProfile (profile : Option ProfileData) : String :=
  let base : List String :=
    ["@page \x7b size: A4; margin: 24mm 18mm 24mm 18mm; \x7d",
     "@media print \x7b html, body \x7b height: 100%; \x7d \x7d",
     "body \x7b font-family: system-ui, -apple-system, \x27Segoe UI\x27, Roboto, \x27Helvetica Neue\x27, Arial; color: #111; line-height:1.45; \x7d",
     "div.document \x7b max-width: 800px; margin: 0 auto; \x7d",
     "p \x7b margin: 8px 0; font-size: 12pt; \x7d",
     "h1,h2,h3 \x7b margin: 14px 0 8px; font-weight:700; \x7d",
     ".page-break \x7b page-break-after: always; break-after: page; \x7d",
     "h1 \x7b page-break-inside: avoid; \x7d",
     "table \x7b page-break-inside: avoid; \x7d",
     "img \x7b max-width: 100%; height: auto; \x7d",
     "table\x7bborder-collapse:collapse;width:100%;margin:10px 0\x7d table th, table td\x7bborder:1px solid #ddd;padding:8px;text-align:left;\x7d",
     "ul, ol \x7b margin: 6px 0 6px 24px; \x7d"]
  let topFont : Option String :=
    match profile with
    | some p =>
      match p.fontsTop with
      | f :: _ => if f.font ≠ "" then some f.font else none
      | [] => none
    | none => none
  let withFont :=
    match topFont with
    | some f => base ++ ["body \x7b font-family: \x27" ++ f ++ "\x27, sans-serif; \x7d"]
    | none => base
  "<style>\n" ++ joinWith "\n" withFont ++ "\n</style>"

/-- Source `_render_paragraph`. -/
def renderParagraph (text : String) : String := "<p>" ++ escapeText text ++ "</p>"

/-- Rendering of one inline run inside `_render_paragraph_with_runs`. -/
def renderRun (r : Run) : String :=
  let txt := escapeText r.text
  if r.bold && r.italic then "<strong><em>" ++ txt ++ "</em></strong>"
  else if r.bold then "<strong>" ++ txt ++ "</strong>"
  else if r.italic then "<em>" ++ txt ++ "</em>"
  else txt

/-- Source `_render_paragraph_with_runs`. -/
def renderParagraphWithRuns (runs : List Run) : String :=
  "<p>" ++ strConcat (runs.map renderRun) ++ "</p>"

/-- Source `_render_heading` with the level clamp into [1, 6]. -/
def renderHeading (text : String) (level : ℤ) : String :=
  let lv := max 1 (min 6 level)
  "<h" ++ toString lv ++ ">" ++ escapeText text ++ "</h" ++ toString lv ++ ">"

/-- Source `_render_list`. -/
def renderListNode (items : List String) (ordered : Bool) : String :=
  let tag := if ordered then "ol" else "ul"
  "<" ++ tag ++ ">" ++
    strConcat (items.map (fun it => "<li>" ++ escapeText it ++ "</li>")) ++
  "</" ++ tag ++ ">"

/-- One table row: header cells only on the first row of a header table. -/
def renderTableRow (header isFirst : Bool) (r : List String) : String :=
  "<tr>" ++
    strConcat (r.map (fun c =>
      if isFirst && header then "<th>" ++ escapeText c ++ "</th>"
      else "<td>" ++ escapeText c ++ "</td>")) ++
  "</tr>"

/-- The table branch of `render_html`. -/
def renderTable (rows : List (List String)) (header : Bool) : String :=
  "<table>" ++
    (match rows with
     | [] => ""
     | r0 :: rest =>
       renderTableRow header true r0 ++ strConcat (rest.map (renderTableRow header false))) ++
  "</table>"

/-- Per-node dispatch of `render_html`. A paragraph-with-runs node whose run
list is empty falls through to `_render_paragraph(node.get("text","") or "")`
in the Python (an empty list is falsy), hence the empty-paragraph quirk. -/
def renderNodeKind : NodeKind → String
  | .heading lv t => renderHeading t lv
  | .paragraph t => renderParagraph t
  | .paragraphRuns runs =>
    if runs.isEmpty then renderParagraph "" else renderParagraphWithRuns runs
  | .list ordered items => renderListNode items ordered
  | .table rows header => renderTable rows header
  | .rawHtml h => h

/-- Source `render_html`: optional injected title heading (a present but
empty title string is falsy and skipped), the rendered nodes with optional
page-break markers as separate parts, joined with newlines inside the fixed
document skeleton. -/
def renderHtml (content : List ContentNode) (profile : Option ProfileData)
    (title : Option String) : String :=
  let css := buildCssFromProfile profile
  let titleParts :=
    match title with
    | some t => if t ≠ "" then ["<h1>" ++ escapeText t ++ "</h1>"] else []
    | none => []
  let bodyParts := titleParts ++ concatMap
    (fun n =>
      [renderNodeKind n.kind] ++
      (if n.pageBreakAfter then ["<div class=\x27page-break\x27></div>"] else []))
    content
  "<!doctype html><html><head><meta charset=\x27utf-8\x27/>" ++ css ++
    "</head><body>" ++ "<div class=\x27document\x27>" ++
    joinWith "\n" bodyParts ++ "</div></body></html>"

-- ---------------------------------------------------------------------------
-- Accessors on the optional profile and concrete inputs used by the claims
-- ---------------------------------------------------------------------------

/-- The heading rules of an optional profile (empty profile has none). -/
def profRules : Option ProfileData → List HeadingRule
  | some p => p.headingRules
  | none => []

/-- The size percentiles of an optional profile. -/
def profPercs (o : Option ProfileData) : Option Percs :=
  o.bind (fun p => p.sizePercentiles)

/-- The size map of an optional profile. -/
def profSizeMap : Option ProfileData → List (ℤ × String)
  | some p => p.sizeMap
  | none => []

/-- Two spans with parseable positive sizes 10 and 20: the smallest profile
on which the heading-rule threshold ordering degenerates. -/
def exTwoSizes : List Span :=
  [⟨1, none, some 10, some "a"⟩, ⟨1, none, some 20, some "b"⟩]

/-- The four spans of the worked structuring example. -/
def exStructSpans : List Span :=
  [⟨1, none, some 24, some "Title"⟩,
   ⟨1, none, some 12, some "Hello world."⟩,
   ⟨1, none, some 12, some "- item one"⟩,
   ⟨1, none, some 12, some "- item two"⟩]

/-- The profile dict of the worked structuring example: only `heading_rules`
is populated, `[{level: 1, min_size: 20}]`. -/
def exStructProfile : ProfileData :=
  ⟨[], none, [], [⟨1, 20⟩], ⟨[], false, 0⟩, []⟩

/-- A hundred rounded sizes, ninety 10s and ten 20s: the smallest shape on
which the interpolated 90th percentile is not an observed value. -/
def exHundred : List ℤ := List.replicate 90 10 ++ List.replicate 10 20

/-- Four spans with sizes 1, 10, 10, 20: size 1 falls below the median. -/
def exBelowMedian : List Span :=
  [⟨1, none, some 1, some "a"⟩, ⟨1, none, some 10, some "b"⟩,
   ⟨1, none, some 10, some "c"⟩, ⟨1, none, some 20, some "d"⟩]

/-- Two spans, the second with a valid size but empty text: its size enters
the size distribution but no sample is retained for it. -/
def exEmptyText : List Span :=
  [⟨1, none, some 10, some "a"⟩, ⟨1, none, some 20, some ""⟩]

/-- A throwaway profile value used only to spell `Option.getD` in closed
witness statements. -/
def dummyProfile : ProfileData := ⟨[], none, [], [], ⟨[], false, 0⟩, []⟩

-- ---------------------------------------------------------------------------
-- Basic lemmas: substring reflection, escaping
-- ---------------------------------------------------------------------------

unseal Rat.add Rat.mul Rat.sub Rat.inv

theorem ratFloor_eq (q : ℚ) : Rat.floor q = ⌊q⌋ := by
  unfold Rat.floor
  split_ifs with h
  · rw [Rat.floor_def, h]
    simp
  · rw [Rat.floor_def]

theorem pyRound_def (q : ℚ) :
    pyRound q = if q - (⌊q⌋ : ℚ) < 1/2 then ⌊q⌋
      else if 1/2 < q - (⌊q⌋ : ℚ) then ⌊q⌋ + 1
      else if ⌊q⌋ % 2 = 0 then ⌊q⌋ else ⌊q⌋ + 1 := by
  simp only [pyRound, ratFloor_eq]

theorem floor_le_pyRound (q : ℚ) : ⌊q⌋ ≤ pyRound q := by
  rw [pyRound_def]
  split_ifs <;> omega

theorem pyRound_le_floor_add_one (q : ℚ) : pyRound q ≤ ⌊q⌋ + 1 := by
  rw [pyRound_def]
  split_ifs <;> omega

theorem pyRound_intCast (z : ℤ) : pyRound (z : ℚ) = z := by
  rw [pyRound_def, Int.floor_intCast, sub_self]
  norm_num

theorem pyRound_mono {p q : ℚ} (h : p ≤ q) : pyRound p ≤ pyRound q := by
  have hf : ⌊p⌋ ≤ ⌊q⌋ := Int.floor_le_floor h
  rcases lt_or_eq_of_le hf with hlt | heq
  · calc pyRound p ≤ ⌊p⌋ + 1 := pyRound_le_floor_add_one p
      _ ≤ ⌊q⌋ := by omega
      _ ≤ pyRound q := floor_le_pyRound q
  · rw [pyRound_def, pyRound_def, ← heq]
    have hr : p - (⌊p⌋ : ℚ) ≤ q - (⌊p⌋ : ℚ) := by linarith
    split_ifs <;> first | omega | (exfalso; linarith)

theorem pyRound_nonneg {q : ℚ} (h : 0 ≤ q) : 0 ≤ pyRound q := by
  have h0 : (0 : ℤ) ≤ ⌊q⌋ := by
    rw [Int.le_floor]
    exact_mod_cast h
  exact le_trans h0 (floor_le_pyRound q)

theorem pyRound_eq_zero_iff {q : ℚ} (h : 0 < q) : pyRound q = 0 ↔ q ≤ 1/2 := by
  constructor
  · intro h0
    by_contra hq
    push_neg at hq
    have hf0 : 0 ≤ ⌊q⌋ := by
      rw [Int.le_floor]
      exact_mod_cast le_of_lt h
    rcases eq_or_lt_of_le hf0 with heq | hlt
    · rw [pyRound_def, ← heq] at h0
      have h1 : ¬ (q - (((0:ℤ)) : ℚ) < 1/2) := by push_cast; linarith
      have h2 : (1:ℚ)/2 < q - (((0:ℤ)) : ℚ) := by push_cast; linarith
      rw [if_neg h1, if_pos h2] at h0
      omega
    · have := floor_le_pyRound q
      omega
  · intro hle
    have hf : ⌊q⌋ = 0 := by
      rw [Int.floor_eq_zero_iff]
      exact ⟨le_of_lt h, by linarith⟩
    rw [pyRound_def, hf]
    simp only [Int.cast_zero, sub_zero]
    rcases lt_or_eq_of_le hle with hlt | heqq
    · rw [if_pos hlt]
    · rw [if_neg (by rw [heqq]; exact lt_irrefl _), if_neg (by rw [heqq]; exact lt_irrefl _)]
      simp

theorem leadsWith_iff (p s : List Char) : leadsWith p s = true ↔ ∃ v, s = p ++ v := by
  induction p generalizing s with
  | nil => simp [leadsWith]
  | cons a ps ih =>
    cases s with
    | nil =>
      simp [leadsWith]
    | cons c cs =>
      simp only [leadsWith, Bool.and_eq_true, decide_eq_true_eq, ih]
      constructor
      · rintro ⟨rfl, v, rfl⟩
        exact ⟨v, rfl⟩
      · rintro ⟨v, hv⟩
        rw [List.cons_append] at hv
        obtain ⟨h1, h2⟩ := List.cons.inj hv
        exact ⟨h1.symm ▸ rfl, v, h2⟩

theorem containsSub_iff (p s : List Char) : containsSub p s = true ↔ SubstrOf p s := by
  induction s with
  | nil =>
    simp only [containsSub, SubstrOf, List.isEmpty_iff]
    constructor
    · rintro rfl
      exact ⟨[], [], rfl⟩
    · rintro ⟨u, v, huv⟩
      have := huv.symm
      simp only [List.append_eq_nil] at this
      exact this.1.2
  | cons c cs ih =>
    simp only [containsSub, Bool.or_eq_true, leadsWith_iff, ih, SubstrOf]
    constructor
    · rintro (⟨v, hv⟩ | ⟨u, v, huv⟩)
      · exact ⟨[], v, by simpa using hv⟩
      · exact ⟨c :: u, v, by simp [huv]⟩
    · rintro ⟨u, v, huv⟩
      cases u with
      | nil => exact Or.inl ⟨v, by simpa using huv⟩
      | cons a u =>
        rw [List.cons_append, List.cons_append] at huv
        obtain ⟨_, h2⟩ := List.cons.inj huv
        exact Or.inr ⟨u, v, h2⟩

theorem escChar_no_angle (c : Char) : '<' ∉ escChar c ∧ '>' ∉ escChar c := by
  unfold escChar
  split_ifs with h1 h2 h3 h4 h5
  · exact ⟨by decide, by decide⟩
  · exact ⟨by decide, by decide⟩
  · exact ⟨by decide, by decide⟩
  · exact ⟨by decide, by decide⟩
  · exact ⟨by decide, by decide⟩
  · refine ⟨?_, ?_⟩
    · simp only [List.mem_singleton]
      intro h
      exact h2 h.symm
    · simp only [List.mem_singleton]
      intro h
      exact h3 h.symm

theorem escList_no_angle (l : List Char) : '<' ∉ escList l ∧ '>' ∉ escList l := by
  induction l with
  | nil => simp [escList]
  | cons c rest ih =>
    have hc := escChar_no_angle c
    simp only [escList, List.mem_append]
    exact ⟨fun h => h.elim (fun h => hc.1 h) (fun h => ih.1 h),
           fun h => h.elim (fun h => hc.2 h) (fun h => ih.2 h)⟩

-- ---------------------------------------------------------------------------
-- Claim C3: the worked structuring example
-- ---------------------------------------------------------------------------

/-- C3: on the four example spans, with a profile whose heading rules are
`[{level: 1, min_size: 20}]`, `build_content_structure_from_spans` yields
exactly a level-1 heading "Title", a paragraph "Hello world." and an
unordered list ["item one", "item two"], in that order. -/
theorem claim3_structuring_example :
    buildContentStructureFromSpans exStructSpans (some exStructProfile) =
      [⟨.heading 1 "Title", false⟩,
       ⟨.paragraph "Hello world.", false⟩,
       ⟨.list false ["item one", "item two"], false⟩] := by
  decide

-- ---------------------------------------------------------------------------
-- Claim C4: escaping in render_html
-- ---------------------------------------------------------------------------

set_option maxRecDepth 8000 in
/-- C4: the text escaper used for every heading, paragraph, run, list item and
table cell leaves no angle bracket in its output; a raw-markup node is spliced
into the rendered document verbatim; and rendering a paragraph node with text
"<script>" yields a document that contains "&lt;script&gt;" and does not
contain the raw string "<script>". -/
theorem claim4_escaping :
    (∀ t : String, '<' ∉ (escapeText t).toList ∧ '>' ∉ (escapeText t).toList) ∧
    (∀ s : String, ∃ u v : String,
        renderHtml [⟨.rawHtml s, false⟩] none none = u ++ s ++ v) ∧
    (containsSub "&lt;script&gt;".toList
        (renderHtml [⟨.paragraph "<script>", false⟩] none none).toList = true ∧
      containsSub "<script>".toList
        (renderHtml [⟨.paragraph "<script>", false⟩] none none).toList = false) := by
  refine ⟨fun t => escList_no_angle t.toList, fun s => ?_, by decide, by decide⟩
  exact ⟨"<!doctype html><html><head><meta charset=\x27utf-8\x27/>" ++
           buildCssFromProfile none ++ "</head><body>" ++ "<div class=\x27document\x27>",
         "</div></body></html>", rfl⟩

-- ---------------------------------------------------------------------------
-- Claim C6: degenerate inputs
-- ---------------------------------------------------------------------------

/-- C6: profiling the empty span list gives the empty profile; role inference
against the empty profile is "P" for every span; a span with an unparseable
size is skipped by the size statistics while processing continues; missing or
empty font names are defaulted to "Unknown". -/
theorem claim6_failure_semantics :
    buildStyleProfile [] = none ∧
    (∀ s : Span, inferRoleForSpan s none = "P") ∧
    (∀ (s : Span) (spans : List Span), roundSize s.size = none →
      collectSizes (s :: spans) = collectSizes spans) ∧
    fontOrUnknown none = "Unknown" ∧ fontOrUnknown (some "") = "Unknown" := by
  refine ⟨rfl, fun s => ?_, fun s spans h => ?_, rfl, rfl⟩
  · unfold inferRoleForSpan
    cases roundSize s.size <;> rfl
  · have he : collectSizes (s :: spans) =
        match roundSize s.size with
        | some z => if z ≠ 0 then z :: collectSizes spans else collectSizes spans
        | none => collectSizes spans := rfl
    rw [he, h]

/-- Witness for C6 at a concrete malformed span. -/
theorem claim6_witness :
    roundSize (none : Option ℚ) = none ∧
    collectSizes [⟨1, none, none, none⟩, ⟨1, none, some 12, some "x"⟩] =
      collectSizes [⟨1, none, some 12, some "x"⟩] :=
  ⟨rfl, claim6_failure_semantics.2.2.1 ⟨1, none, none, none⟩
    [⟨1, none, some 12, some "x"⟩] rfl⟩

-- ---------------------------------------------------------------------------
-- Claim C7: bold/italic keyword heuristics
-- ---------------------------------------------------------------------------

/-- C7 counterexample: the font name "HelveticaBOLD" is counted as bold by the
code although it contains none of the five substrings the claim lists, and
"Times-It" is counted as italic although it contains none of the three listed
italic substrings (the code keyword lists also hold "BOLD", "SemiBold", "It"). -/
theorem claim7_counterexample :
    isBoldFont "HelveticaBOLD" = true ∧
    (¬ ∃ k ∈ ["Bold", "Bd", "Black", "Semibold", "Heavy"],
        SubstrOf k.toList "HelveticaBOLD".toList) ∧
    isItalicFont "Times-It" = true ∧
    (¬ ∃ k ∈ ["Italic", "Oblique", "Slanted"],
        SubstrOf k.toList "Times-It".toList) := by
  refine ⟨by decide, ?_, by decide, ?_⟩
  · rintro ⟨k, hk, hsub⟩
    rw [← containsSub_iff] at hsub
    simp only [List.mem_cons, List.not_mem_nil, or_false] at hk
    rcases hk with rfl | rfl | rfl | rfl | rfl <;> exact absurd hsub (by decide)
  · rintro ⟨k, hk, hsub⟩
    rw [← containsSub_iff] at hsub
    simp only [List.mem_cons, List.not_mem_nil, or_false] at hk
    rcases hk with rfl | rfl | rfl <;> exact absurd hsub (by decide)

/-- C7 amended: a font name is counted as bold exactly when it contains one of
the seven substrings "Bold", "Bd", "BOLD", "Black", "Semibold", "SemiBold",
"Heavy", and as italic exactly when it contains one of "Italic", "It",
"Oblique", "Slanted" (case-sensitive substring tests on the font name only). -/
theorem claim7_amended (f : String) :
    (isBoldFont f = true ↔ ∃ k ∈ BOLD_KEYWORDS, SubstrOf k.toList f.toList) ∧
    (isItalicFont f = true ↔ ∃ k ∈ ITALIC_KEYWORDS, SubstrOf k.toList f.toList) := by
  constructor
  · unfold isBoldFont
    split_ifs with h
    · subst h
      simp only [false_iff]
      rintro ⟨k, hk, hsub⟩
      rw [← containsSub_iff] at hsub
      simp only [BOLD_KEYWORDS, List.mem_cons, List.not_mem_nil, or_false] at hk
      rcases hk with rfl | rfl | rfl | rfl | rfl | rfl | rfl <;> exact absurd hsub (by decide)
    · simp only [List.any_eq_true, containsSub_iff]
  · unfold isItalicFont
    split_ifs with h
    · subst h
      simp only [false_iff]
      rintro ⟨k, hk, hsub⟩
      rw [← containsSub_iff] at hsub
      simp only [ITALIC_KEYWORDS, List.mem_cons, List.not_mem_nil, or_false] at hk
      rcases hk with rfl | rfl | rfl | rfl <;> exact absurd hsub (by decide)
    · simp only [List.any_eq_true, containsSub_iff]

-- ---------------------------------------------------------------------------
-- List helper lemmas
-- ---------------------------------------------------------------------------

theorem getD_mem (l : List ℤ) (i : ℕ) (h : i < l.length) : l.getD i 0 ∈ l := by
  induction l generalizing i with
  | nil => simp at h
  | cons x xs ih =>
    cases i with
    | zero => simp
    | succ i =>
      rw [List.getD_cons_succ]
      exact List.mem_cons_of_mem x (ih i (by simpa using h))

theorem sorted_getD_le (l : List ℤ) (hs : List.Sorted (fun a b => a ≤ b) l)
    {i j : ℕ} (hij : i ≤ j) (hj : j < l.length) : l.getD i 0 ≤ l.getD j 0 := by
  rcases eq_or_lt_of_le hij with rfl | hlt
  · exact le_refl _
  · have hi : i < l.length := lt_trans hlt hj
    rw [List.getD_eq_getElem l 0 hi, List.getD_eq_getElem l 0 hj]
    exact List.pairwise_iff_getElem.mp hs i j hi hj hlt

theorem sortAsc_sorted (l : List ℤ) : List.Sorted (fun a b => a ≤ b) (sortAsc l) :=
  List.sorted_insertionSort _ l

theorem mem_sortAsc {a : ℤ} {l : List ℤ} : a ∈ sortAsc l ↔ a ∈ l :=
  (List.perm_insertionSort _ l).mem_iff

theorem sortAsc_length (l : List ℤ) : (sortAsc l).length = l.length :=
  (List.perm_insertionSort _ l).length_eq

theorem le_foldl_max (l : List ℤ) (init : ℤ) : init ≤ l.foldl max init := by
  induction l generalizing init with
  | nil => simp
  | cons x xs ih =>
    rw [List.foldl_cons]
    exact le_trans (le_max_left init x) (ih (max init x))

theorem mem_le_foldl_max (l : List ℤ) (init : ℤ) {x : ℤ} (hx : x ∈ l) :
    x ≤ l.foldl max init := by
  induction l generalizing init with
  | nil => simp at hx
  | cons y ys ih =>
    rw [List.foldl_cons]
    rcases List.mem_cons.mp hx with rfl | h
    · exact le_trans (le_max_right init x) (le_foldl_max ys (max init x))
    · exact ih (max init y) h

theorem foldl_max_mem (l : List ℤ) (init : ℤ) :
    l.foldl max init = init ∨ l.foldl max init ∈ l := by
  induction l generalizing init with
  | nil => exact Or.inl rfl
  | cons y ys ih =>
    rw [List.foldl_cons]
    rcases ih (max init y) with h | h
    · rcases max_choice init y with hm | hm
      · exact Or.inl (by rw [h, hm])
      · exact Or.inr (by rw [h, hm]; exact List.mem_cons_self y ys)
    · exact Or.inr (List.mem_cons_of_mem y h)

theorem le_listMax {l : List ℤ} {x : ℤ} (hx : x ∈ l) : x ≤ listMax l := by
  cases l with
  | nil => simp at hx
  | cons h t =>
    show x ≤ t.foldl max h
    rcases List.mem_cons.mp hx with rfl | hm
    · exact le_foldl_max t x
    · exact mem_le_foldl_max t h hm

theorem listMax_mem {l : List ℤ} (h : l ≠ []) : listMax l ∈ l := by
  cases l with
  | nil => exact absurd rfl h
  | cons a t =>
    show t.foldl max a ∈ a :: t
    rcases foldl_max_mem t a with h1 | h1
    · rw [h1]
      exact List.mem_cons_self a t
    · exact List.mem_cons_of_mem a h1

theorem listMax_eq_getD_last {l : List ℤ} (hs : List.Sorted (fun a b => a ≤ b) l)
    (h : l ≠ []) : listMax l = l.getD (l.length - 1) 0 := by
  have hlen : l.length - 1 < l.length := by
    cases l with
    | nil => exact absurd rfl h
    | cons a t => simp
  apply le_antisymm
  · obtain ⟨i, hi, hgi⟩ := List.mem_iff_getElem.mp (listMax_mem h)
    rw [← List.getD_eq_getElem l 0 hi] at hgi
    rw [← hgi]
    exact sorted_getD_le l hs (by omega) hlen
  · exact le_listMax (getD_mem l _ hlen)

theorem collectSizes_cons (s : Span) (rest : List Span) :
    collectSizes (s :: rest) =
      match roundSize s.size with
      | some z => if z ≠ 0 then z :: collectSizes rest else collectSizes rest
      | none => collectSizes rest := rfl

theorem collectSizes_cons_some {s : Span} {rest : List Span} {z0 : ℤ}
    (hr : roundSize s.size = some z0) :
    collectSizes (s :: rest) =
      if z0 ≠ 0 then z0 :: collectSizes rest else collectSizes rest := by
  rw [collectSizes_cons, hr]

theorem collectSizes_cons_none {s : Span} {rest : List Span}
    (hr : roundSize s.size = none) :
    collectSizes (s :: rest) = collectSizes rest := by
  rw [collectSizes_cons, hr]

theorem collectSizes_pos {spans : List Span}
    (hpos : ∀ s ∈ spans, ∀ q, s.size = some q → 0 < q) :
    ∀ z ∈ collectSizes spans, 1 ≤ z := by
  induction spans with
  | nil => intro z hz; simp [collectSizes] at hz
  | cons s rest ih =>
    intro z hz
    have hrest : ∀ t ∈ rest, ∀ q, t.size = some q → 0 < q :=
      fun t ht q hq => hpos t (List.mem_cons_of_mem s ht) q hq
    rcases hr : roundSize s.size with _ | z0
    · rw [collectSizes_cons_none hr] at hz
      exact ih hrest z hz
    · rw [collectSizes_cons_some hr] at hz
      by_cases h0 : z0 = 0
      · subst h0
        simp at hz
        exact ih hrest z hz
      · rw [if_pos h0] at hz
        rcases List.mem_cons.mp hz with rfl | hz2
        · simp only [roundSize] at hr
          obtain ⟨q, hq, hpq⟩ := Option.map_eq_some'.mp hr
          have hq0 : 0 < q := hpos s (List.mem_cons_self s rest) q hq
          have h2 : 0 ≤ pyRound q := pyRound_nonneg (le_of_lt hq0)
          omega
        · exact ih hrest z hz2

theorem mem_firstKeys [DecidableEq α] {a : α} {l : List α} : a ∈ firstKeys l ↔ a ∈ l := by
  induction l with
  | nil => simp [firstKeys]
  | cons x xs ih =>
    simp only [firstKeys, List.mem_cons, List.mem_filter]
    constructor
    · rintro (rfl | ⟨h1, _⟩)
      · exact Or.inl rfl
      · exact Or.inr (ih.mp h1)
    · rintro (rfl | h)
      · exact Or.inl rfl
      · by_cases hax : a = x
        · exact Or.inl hax
        · exact Or.inr ⟨ih.mpr h, by simpa using hax⟩

theorem mem_distinctDesc {z : ℤ} {l : List ℤ} : z ∈ distinctDesc l ↔ z ∈ l := by
  unfold distinctDesc
  rw [(List.perm_insertionSort _ _).mem_iff]
  exact mem_firstKeys

theorem assocLookup_mapSelf (l : List ℤ) (f : ℤ → String) (z : ℤ) :
    assocLookup (l.map (fun x => (x, f x))) z = if z ∈ l then some (f z) else none := by
  induction l with
  | nil => simp [assocLookup]
  | cons x xs ih =>
    simp only [List.map_cons, assocLookup]
    by_cases hxz : x = z
    · subst hxz
      rw [if_pos rfl, if_pos (List.mem_cons_self x xs)]
    · rw [if_neg hxz, ih]
      by_cases hz : z ∈ xs
      · rw [if_pos hz, if_pos (List.mem_cons_of_mem x hz)]
      · rw [if_neg hz, if_neg (fun h => by
          rcases List.mem_cons.mp h with rfl | h2
          exacts [hxz rfl, hz h2])]

-- ---------------------------------------------------------------------------
-- Claim C10: sizes that round to zero
-- ---------------------------------------------------------------------------

/-- C10 counterexample: the positive size 1/2 is not strictly below 0.5, yet
Python round-half-to-even sends it to 0, so the span is dropped from the size
distribution. -/
theorem claim10_counterexample :
    roundSize (some ((1:ℚ)/2)) = some 0 ∧ ¬ ((1:ℚ)/2 < 1/2) ∧
    collectSizes [⟨1, none, some ((1:ℚ)/2), some "x"⟩] = [] := by
  refine ⟨by decide, by exact lt_irrefl _, by decide⟩

/-- C10 amended: a positive size rounds to 0 exactly when it is at most 0.5
(round half to even sends 0.5 itself to 0); a span whose rounded size is 0 is
excluded from the size distribution and from the per-font tallies, still
counts toward font frequency, and is classified "P" against every profile. -/
theorem claim10_amended :
    (∀ q : ℚ, 0 < q → (pyRound q = 0 ↔ q ≤ 1/2)) ∧
    (∀ (s : Span) (spans : List Span), roundSize s.size = some 0 →
      collectSizes (s :: spans) = collectSizes spans ∧
      fontsSeq (s :: spans) = fontOrUnknown s.font :: fontsSeq spans ∧
      (∀ f, fontSizedCount (s :: spans) f = fontSizedCount spans f ∧
        fontBoldCount (s :: spans) f = fontBoldCount spans f ∧
        fontItalicCount (s :: spans) f = fontItalicCount spans f) ∧
      (∀ prof, inferRoleForSpan s prof = "P")) := by
  have htr : ∀ (s : Span), roundSize s.size = some 0 → truthySize s = false := by
    intro s h
    unfold truthySize
    rw [h]
    simp
  refine ⟨fun q hq => pyRound_eq_zero_iff hq,
          fun s spans h => ⟨?_, rfl, fun f => ⟨?_, ?_, ?_⟩, fun prof => ?_⟩⟩
  · rw [collectSizes_cons_some h]
    simp
  · simp [fontSizedCount, List.countP_cons, htr s h]
  · simp [fontBoldCount, List.countP_cons, htr s h]
  · simp [fontItalicCount, List.countP_cons, htr s h]
  · unfold inferRoleForSpan
    rw [h]
    cases prof <;> simp

/-- Witness for C10 at size 1/4 and at a concrete zero-rounding span. -/
theorem claim10_witness :
    (0 < (1:ℚ)/4 ∧ (pyRound ((1:ℚ)/4) = 0 ↔ (1:ℚ)/4 ≤ 1/2)) ∧
    (roundSize (some ((2:ℚ)/5)) = some 0 ∧
      collectSizes [⟨1, none, some ((2:ℚ)/5), none⟩, ⟨1, none, some 12, none⟩] =
        collectSizes [⟨1, none, some 12, none⟩]) :=
  ⟨⟨by norm_num, claim10_amended.1 ((1:ℚ)/4) (by norm_num)⟩,
   ⟨by decide, (claim10_amended.2 ⟨1, none, some ((2:ℚ)/5), none⟩
      [⟨1, none, some 12, none⟩] (by decide)).1⟩⟩

-- ---------------------------------------------------------------------------
-- Claim C9: re-profiling the sampled spans
-- ---------------------------------------------------------------------------

/-- C9 counterexample: a span with a valid size but empty text contributes to
the size distribution but not to `sample_texts`, so re-profiling the sampled
spans changes the percentiles. -/
theorem claim9_counterexample :
    profPercs (buildStyleProfile (sampleSourceSpans exEmptyText)) ≠
      profPercs (buildStyleProfile exEmptyText) := by
  decide

/-- C9 amended: when every span has nonempty stripped text and there are at
most 30 spans, the spans backing `sample_texts` are all the spans, so
re-profiling them reproduces the original `size_percentiles`. -/
theorem claim9_amended (spans : List Span) (h30 : spans.length ≤ 30)
    (htext : ∀ s ∈ spans, pyStrip (textOf s) ≠ "") :
    profPercs (buildStyleProfile (sampleSourceSpans spans)) =
      profPercs (buildStyleProfile spans) := by
  have hf : spans.filter (fun s => pyStrip (textOf s) ≠ "") = spans :=
    List.filter_eq_self.mpr (fun a ha => by simpa using htext a ha)
  have hs : sampleSourceSpans spans = spans := by
    unfold sampleSourceSpans
    rw [hf]
    exact List.take_of_length_le h30
  rw [hs]

/-- Witness for C9 on a single-span list. -/
theorem claim9_witness :
    ([(⟨1, none, some 10, some "a"⟩ : Span)].length ≤ 30) ∧
    profPercs (buildStyleProfile (sampleSourceSpans [⟨1, none, some 10, some "a"⟩])) =
      profPercs (buildStyleProfile [⟨1, none, some 10, some "a"⟩]) :=
  ⟨by decide, claim9_amended [⟨1, none, some 10, some "a"⟩] (by decide)
    (fun s hs => by
      simp only [List.mem_singleton] at hs
      subst hs
      decide)⟩

-- ---------------------------------------------------------------------------
-- Interpolation lemmas for the percentile computation
-- ---------------------------------------------------------------------------

theorem one_le_pyRound {q : ℚ} (h : (1:ℚ) ≤ q) : 1 ≤ pyRound q := by
  have h2 := pyRound_mono h
  rwa [show ((1:ℚ)) = ((1:ℤ) : ℚ) by norm_num, pyRound_intCast] at h2

theorem interpVal_le_right (S : List ℤ) (den j δ : ℕ) (hden : 0 < den) (hδ : δ ≤ den)
    (hab : S.getD (j-1) 0 ≤ S.getD j 0) :
    interpVal S den j δ ≤ (S.getD j 0 : ℚ) := by
  unfold interpVal
  rw [div_le_iff₀ (by positivity)]
  have hab' : ((S.getD (j-1) 0 : ℤ) : ℚ) ≤ ((S.getD j 0 : ℤ) : ℚ) := by exact_mod_cast hab
  have hδ' : ((δ : ℕ) : ℚ) ≤ ((den : ℕ) : ℚ) := by exact_mod_cast hδ
  nlinarith [mul_le_mul_of_nonneg_right hab' (sub_nonneg.mpr hδ')]

theorem left_le_interpVal (S : List ℤ) (den j δ : ℕ) (hden : 0 < den) (_hδ : δ ≤ den)
    (hab : S.getD (j-1) 0 ≤ S.getD j 0) :
    (S.getD (j-1) 0 : ℚ) ≤ interpVal S den j δ := by
  unfold interpVal
  rw [le_div_iff₀ (by positivity)]
  have hab' : ((S.getD (j-1) 0 : ℤ) : ℚ) ≤ ((S.getD j 0 : ℤ) : ℚ) := by exact_mod_cast hab
  have hδ0 : (0:ℚ) ≤ ((δ : ℕ) : ℚ) := by positivity
  nlinarith [mul_le_mul_of_nonneg_right hab' hδ0]

theorem one_le_interpVal (S : List ℤ) (den j δ : ℕ) (hden : 0 < den) (hδ : δ ≤ den)
    (ha : 1 ≤ S.getD (j-1) 0) (hb : 1 ≤ S.getD j 0 ∨ δ = 0) :
    (1:ℚ) ≤ interpVal S den j δ := by
  unfold interpVal
  rw [le_div_iff₀ (by positivity)]
  have ha' : (1:ℚ) ≤ ((S.getD (j-1) 0 : ℤ) : ℚ) := by exact_mod_cast ha
  have hδ' : ((δ : ℕ) : ℚ) ≤ ((den : ℕ) : ℚ) := by exact_mod_cast hδ
  have hδ0 : (0:ℚ) ≤ ((δ : ℕ) : ℚ) := by positivity
  have hden' : (0:ℚ) < ((den : ℕ) : ℚ) := by exact_mod_cast hden
  rcases hb with hb | rfl
  · have hb' : (1:ℚ) ≤ ((S.getD j 0 : ℤ) : ℚ) := by exact_mod_cast hb
    nlinarith [mul_le_mul_of_nonneg_right ha' (sub_nonneg.mpr hδ'),
               mul_le_mul_of_nonneg_right hb' hδ0]
  · push_cast
    nlinarith [mul_le_mul_of_nonneg_right ha' (le_of_lt hden')]

theorem interpVal_mono (S : List ℤ) (hs : List.Sorted (fun a b => a ≤ b) S)
    {den1 den2 j1 j2 δ1 δ2 : ℕ}
    (h1l : 1 ≤ j1) (h2l : 1 ≤ j2) (h1u : j1 ≤ S.length - 1) (h2u : j2 ≤ S.length - 1)
    (hlen : 2 ≤ S.length) (hd1 : δ1 < den1) (hd2 : δ2 < den2)
    (hj : j1 < j2 ∨ (j1 = j2 ∧ δ1 * den2 ≤ δ2 * den1)) :
    interpVal S den1 j1 δ1 ≤ interpVal S den2 j2 δ2 := by
  have hden1 : 0 < den1 := lt_of_le_of_lt (Nat.zero_le _) hd1
  have hden2 : 0 < den2 := lt_of_le_of_lt (Nat.zero_le _) hd2
  have hab1 : S.getD (j1-1) 0 ≤ S.getD j1 0 := sorted_getD_le S hs (by omega) (by omega)
  have hab2 : S.getD (j2-1) 0 ≤ S.getD j2 0 := sorted_getD_le S hs (by omega) (by omega)
  rcases hj with hlt | ⟨rfl, hcross⟩
  · calc interpVal S den1 j1 δ1 ≤ (S.getD j1 0 : ℚ) :=
          interpVal_le_right S den1 j1 δ1 hden1 (le_of_lt hd1) hab1
      _ ≤ (S.getD (j2-1) 0 : ℚ) := by
          exact_mod_cast sorted_getD_le S hs (by omega) (by omega)
      _ ≤ interpVal S den2 j2 δ2 :=
          left_le_interpVal S den2 j2 δ2 hden2 (le_of_lt hd2) hab2
  · unfold interpVal
    rw [div_le_div_iff₀ (by positivity) (by positivity)]
    have hab' : ((S.getD (j1-1) 0 : ℤ) : ℚ) ≤ ((S.getD j1 0 : ℤ) : ℚ) := by
      exact_mod_cast hab1
    have hc : ((δ1 : ℕ) : ℚ) * ((den2 : ℕ) : ℚ) ≤ ((δ2 : ℕ) : ℚ) * ((den1 : ℕ) : ℚ) := by
      exact_mod_cast hcross
    nlinarith [mul_le_mul_of_nonneg_left hc (sub_nonneg.mpr hab')]

theorem quantileExc_eq_interp (S : List ℤ) (den i : ℕ)
    (h1 : 1 ≤ (i * (S.length + 1)) / den) (h2 : (i * (S.length + 1)) / den ≤ S.length - 1) :
    quantileExc S den i =
      interpVal S den ((i * (S.length + 1)) / den) ((i * (S.length + 1)) % den) := by
  simp only [quantileExc]
  rw [if_neg (by omega), if_neg (by omega)]

theorem medianQ_eq_interp (S : List ℤ) (h : 1 ≤ S.length) :
    medianQ S = interpVal S 2 ((S.length + 1) / 2) ((S.length + 1) % 2) := by
  simp only [medianQ, interpVal]
  rcases Nat.mod_two_eq_zero_or_one S.length with h2 | h2
  · rw [if_neg (by omega)]
    rw [show (S.length + 1) / 2 = S.length / 2 by omega,
        show (S.length + 1) % 2 = 1 by omega]
    push_cast
    ring_nf
  · rw [if_pos h2]
    rw [show (S.length + 1) / 2 = S.length / 2 + 1 by omega,
        show (S.length + 1) % 2 = 0 by omega,
        show S.length / 2 + 1 - 1 = S.length / 2 by omega]
    push_cast
    ring_nf

theorem sortAsc_ne_nil {L : List ℤ} (h : L ≠ []) : sortAsc L ≠ [] := by
  intro he
  apply h
  have := sortAsc_length L
  rw [he] at this
  exact List.length_eq_zero.mp this.symm

theorem sizePercentilesFun_some {L : List ℤ} (h : L ≠ []) :
    sizePercentilesFun L = some
      { p90 := if 100 ≤ (sortAsc L).length then pyRound (quantileExc (sortAsc L) 100 90)
               else listMax (sortAsc L)
        p75 := if 4 ≤ (sortAsc L).length then pyRound (quantileExc (sortAsc L) 4 3)
               else (sortAsc L).getD ((sortAsc L).length - 2) 0
        p50 := pyRound (medianQ (sortAsc L))
        p25 := (sortAsc L).getD ((sortAsc L).length / 4) 0
        sMin := listMin (sortAsc L)
        sMax := listMax (sortAsc L) } := by
  simp only [sizePercentilesFun]
  rw [if_neg (by simp [List.isEmpty_iff, sortAsc_ne_nil h])]

theorem percPos {L : List ℤ} (hL : L ≠ []) (h1 : ∀ z ∈ L, 1 ≤ z) {pc : Percs}
    (hpc : sizePercentilesFun L = some pc) :
    1 ≤ pc.p90 ∧ 1 ≤ pc.p75 ∧ 1 ≤ pc.p50 := by
  rw [sizePercentilesFun_some hL] at hpc
  obtain rfl := Option.some.inj hpc
  have hs := sortAsc_sorted L
  have hne := sortAsc_ne_nil hL
  have hmem : ∀ z ∈ sortAsc L, 1 ≤ z := fun z hz => h1 z (mem_sortAsc.mp hz)
  have hlen : 1 ≤ (sortAsc L).length := List.length_pos.mpr hne
  refine ⟨?_, ?_, ?_⟩
  · dsimp only
    by_cases h100 : 100 ≤ (sortAsc L).length
    · rw [if_pos h100, quantileExc_eq_interp (sortAsc L) 100 90 (by omega) (by omega)]
      apply one_le_pyRound
      apply one_le_interpVal _ _ _ _ (by omega) (le_of_lt (Nat.mod_lt _ (by omega)))
      · exact hmem _ (getD_mem _ _ (by omega))
      · exact Or.inl (hmem _ (getD_mem _ _ (by omega)))
    · rw [if_neg h100]
      exact hmem _ (listMax_mem hne)
  · dsimp only
    by_cases h4 : 4 ≤ (sortAsc L).length
    · rw [if_pos h4, quantileExc_eq_interp (sortAsc L) 4 3 (by omega) (by omega)]
      apply one_le_pyRound
      apply one_le_interpVal _ _ _ _ (by omega) (le_of_lt (Nat.mod_lt _ (by omega)))
      · exact hmem _ (getD_mem _ _ (by omega))
      · exact Or.inl (hmem _ (getD_mem _ _ (by omega)))
    · rw [if_neg h4]
      exact hmem _ (getD_mem _ _ (by omega))
  · dsimp only
    apply one_le_pyRound
    simp only [medianQ]
    split_ifs with hodd
    · have := hmem _ (getD_mem (sortAsc L) (( sortAsc L).length / 2) (by omega))
      exact_mod_cast this
    · have ha := hmem _ (getD_mem (sortAsc L) ((sortAsc L).length / 2 - 1) (by omega))
      have hb := hmem _ (getD_mem (sortAsc L) ((sortAsc L).length / 2) (by omega))
      have ha' : (1:ℚ) ≤ ((sortAsc L).getD ((sortAsc L).length / 2 - 1) 0 : ℚ) := by
        exact_mod_cast ha
      have hb' : (1:ℚ) ≤ ((sortAsc L).getD ((sortAsc L).length / 2) 0 : ℚ) := by
        exact_mod_cast hb
      rw [le_div_iff₀ (by norm_num)]
      linarith

theorem percChain {L : List ℤ} (hL : L ≠ []) (hn : L.length ≠ 2) {pc : Percs}
    (hpc : sizePercentilesFun L = some pc) :
    pc.p50 ≤ pc.p75 ∧ pc.p75 ≤ pc.p90 := by
  rw [sizePercentilesFun_some hL] at hpc
  obtain rfl := Option.some.inj hpc
  have hs := sortAsc_sorted L
  have hne := sortAsc_ne_nil hL
  have hlenL : (sortAsc L).length = L.length := sortAsc_length L
  have hlen : 1 ≤ (sortAsc L).length := List.length_pos.mpr hne
  have hn' : (sortAsc L).length ≠ 2 := by omega
  rcases show (sortAsc L).length = 1 ∨ (sortAsc L).length = 3 ∨ 4 ≤ (sortAsc L).length
    by omega with hc1 | hc3 | hc4
  · constructor
    · dsimp only
      rw [if_neg (by omega)]
      have hm : medianQ (sortAsc L) = (((sortAsc L).getD 0 0 : ℤ) : ℚ) := by
        simp only [medianQ]
        rw [if_pos (by omega), show (sortAsc L).length / 2 = 0 by omega]
      rw [hm, pyRound_intCast, show (sortAsc L).length - 2 = 0 by omega]
    · dsimp only
      rw [if_neg (by omega), if_neg (by omega), listMax_eq_getD_last hs hne,
          show (sortAsc L).length - 1 = 0 by omega, show (sortAsc L).length - 2 = 0 by omega]
  · constructor
    · dsimp only
      rw [if_neg (by omega)]
      have hm : medianQ (sortAsc L) = (((sortAsc L).getD 1 0 : ℤ) : ℚ) := by
        simp only [medianQ]
        rw [if_pos (by omega), show (sortAsc L).length / 2 = 1 by omega]
      rw [hm, pyRound_intCast, show (sortAsc L).length - 2 = 1 by omega]
    · dsimp only
      rw [if_neg (by omega), if_neg (by omega), listMax_eq_getD_last hs hne,
          show (sortAsc L).length - 1 = 2 by omega, show (sortAsc L).length - 2 = 1 by omega]
      exact sorted_getD_le _ hs (by omega) (by omega)
  · constructor
    · dsimp only
      rw [if_pos hc4]
      apply pyRound_mono
      rw [medianQ_eq_interp (sortAsc L) (by omega),
          quantileExc_eq_interp (sortAsc L) 4 3 (by omega) (by omega)]
      apply interpVal_mono (sortAsc L) hs (by omega) (by omega) (by omega) (by omega)
        (by omega) (by omega) (by omega)
      omega
    · dsimp only
      by_cases h100 : 100 ≤ (sortAsc L).length
      · rw [if_pos hc4, if_pos h100]
        apply pyRound_mono
        rw [quantileExc_eq_interp (sortAsc L) 4 3 (by omega) (by omega),
            quantileExc_eq_interp (sortAsc L) 100 90 (by omega) (by omega)]
        apply interpVal_mono (sortAsc L) hs (by omega) (by omega) (by omega) (by omega)
          (by omega) (by omega) (by omega)
        omega
      · rw [if_pos hc4, if_neg h100]
        have hab : (sortAsc L).getD ((3 * ((sortAsc L).length + 1)) / 4 - 1) 0 ≤
            (sortAsc L).getD ((3 * ((sortAsc L).length + 1)) / 4) 0 :=
          sorted_getD_le _ hs (by omega) (by omega)
        have hQ : quantileExc (sortAsc L) 4 3 ≤ ((listMax (sortAsc L) : ℤ) : ℚ) := by
          rw [quantileExc_eq_interp (sortAsc L) 4 3 (by omega) (by omega)]
          calc interpVal (sortAsc L) 4 ((3 * ((sortAsc L).length + 1)) / 4)
                ((3 * ((sortAsc L).length + 1)) % 4)
              ≤ ((sortAsc L).getD ((3 * ((sortAsc L).length + 1)) / 4) 0 : ℚ) :=
                interpVal_le_right _ _ _ _ (by omega)
                  (le_of_lt (Nat.mod_lt _ (by omega))) hab
            _ ≤ ((listMax (sortAsc L) : ℤ) : ℚ) := by
                exact_mod_cast le_listMax (getD_mem _ _ (by omega))
        have hmono := pyRound_mono hQ
        rwa [pyRound_intCast] at hmono

-- ---------------------------------------------------------------------------
-- Unfolding lemmas for the built profile and role inference
-- ---------------------------------------------------------------------------

theorem buildStyleProfile_fields {spans : List Span} (h : spans.isEmpty = false)
    {p : ProfileData} (hb : buildStyleProfile spans = some p) :
    p.sizePercentiles = sizePercentilesFun (collectSizes spans) ∧
    p.sizeMap = (match sizePercentilesFun (collectSizes spans) with
      | none => []
      | some pc => (distinctDesc (collectSizes spans)).map
          (fun z => (z, thresholdRole pc.p90 pc.p75 pc.p50 z))) ∧
    p.headingRules = (match sizePercentilesFun (collectSizes spans) with
      | none => []
      | some pc =>
        [⟨1, if pc.p90 ≠ 0 then pc.p90 else listMax (collectSizes spans)⟩,
         ⟨2, if pc.p75 ≠ 0 then pc.p75 else pc.p50⟩,
         ⟨3, if pc.p50 ≠ 0 then pc.p50 else pc.p25⟩]) := by
  simp only [buildStyleProfile, h, Bool.false_eq_true, if_false] at hb
  obtain rfl := Option.some.inj hb
  exact ⟨rfl, rfl, rfl⟩

theorem scanRules_three (m1 m2 m3 z : ℤ) :
    scanRules [⟨1, m1⟩, ⟨2, m2⟩, ⟨3, m3⟩] z =
      (if m1 ≤ z then some "H1" else if m2 ≤ z then some "H2"
       else if m3 ≤ z then some "H3" else none) := by
  have e1 : "H" ++ toString (1:ℤ) = "H1" := by decide
  have e2 : "H" ++ toString (2:ℤ) = "H2" := by decide
  have e3 : "H" ++ toString (3:ℤ) = "H3" := by decide
  simp only [scanRules, e1, e2, e3]

theorem inferRole_none (s : Span) : inferRoleForSpan s none = "P" := by
  unfold inferRoleForSpan
  cases roundSize s.size <;> rfl

theorem inferRole_zero {s : Span} (h : roundSize s.size = some 0)
    (prof : Option ProfileData) : inferRoleForSpan s prof = "P" := by
  unfold inferRoleForSpan
  rw [h]
  cases prof <;> simp

theorem build_empty_iff {spans : List Span} (hb : buildStyleProfile spans = none →
    False) : spans ≠ [] := by
  intro h
  subst h
  exact hb rfl

theorem inferRole_built_eq {spans : List Span} {p : ProfileData} {pc : Percs}
    (hb : buildStyleProfile spans = some p) (hpc : p.sizePercentiles = some pc)
    {A : Span} {za : ℤ} (ha : roundSize A.size = some za) (h0 : za ≠ 0) :
    inferRoleForSpan A (some p) =
      (if (if pc.p90 ≠ 0 then pc.p90 else listMax (collectSizes spans)) ≤ za then "H1"
       else if (if pc.p75 ≠ 0 then pc.p75 else pc.p50) ≤ za then "H2"
       else if (if pc.p50 ≠ 0 then pc.p50 else pc.p25) ≤ za then "H3"
       else "P") := by
  have hne : spans ≠ [] := by
    intro h
    rw [h] at hb
    exact Option.noConfusion hb
  have hE : spans.isEmpty = false := by
    cases spans with
    | nil => exact absurd rfl hne
    | cons a t => rfl
  obtain ⟨hperc, hmap, hrules⟩ := buildStyleProfile_fields hE hb
  have hpcs : sizePercentilesFun (collectSizes spans) = some pc := by rw [← hperc, hpc]
  rw [hpcs] at hmap hrules
  dsimp only at hmap hrules
  unfold inferRoleForSpan
  rw [ha]
  dsimp only
  rw [if_neg h0, hrules, scanRules_three]
  by_cases h1 : (if pc.p90 ≠ 0 then pc.p90 else listMax (collectSizes spans)) ≤ za
  · rw [if_pos h1, if_pos h1]
  · rw [if_neg h1, if_neg h1]
    by_cases h2 : (if pc.p75 ≠ 0 then pc.p75 else pc.p50) ≤ za
    · rw [if_pos h2, if_pos h2]
    · rw [if_neg h2, if_neg h2]
      by_cases h3 : (if pc.p50 ≠ 0 then pc.p50 else pc.p25) ≤ za
      · rw [if_pos h3, if_pos h3]
      · rw [if_neg h3, if_neg h3]
        rw [hmap, assocLookup_mapSelf]
        by_cases hzmem : za ∈ distinctDesc (collectSizes spans)
        · rw [if_pos hzmem]
          show thresholdRole pc.p90 pc.p75 pc.p50 za = "P"
          unfold thresholdRole
          rw [if_neg, if_neg, if_neg]
          · rintro ⟨hp, hle⟩
            rw [if_pos hp] at h3
            exact h3 hle
          · rintro ⟨hp, hle⟩
            rw [if_pos hp] at h2
            exact h2 hle
          · rintro ⟨hp, hle⟩
            rw [if_pos hp] at h1
            exact h1 hle
        · rw [if_neg hzmem]
          rfl

-- ---------------------------------------------------------------------------
-- Claim C5: the percentile tiering
-- ---------------------------------------------------------------------------

set_option maxRecDepth 4000 in
/-- C5 counterexample: on ninety 10s and ten 20s the computed p90 is 19, a
value that does not occur in the data at all, so p90 is the rounded linear
interpolation of `statistics.quantiles`, not a nearest-rank selection. -/
theorem claim5_counterexample :
    (sizePercentilesFun exHundred).map (fun p => p.p90) = some 19 ∧
    (19:ℤ) ∉ exHundred := by
  constructor
  · decide
  · decide

/-- C5 amended: the exact tiering of `_size_percentiles`: with at least 100
samples p90 is the rounded linearly-interpolated exclusive-method 90th
percentile (position 90(n+1)/100), otherwise the maximum; with at least 4
samples p75 is the rounded interpolated third quartile (position 3(n+1)/4),
otherwise the element at index n-2 (clamped at 0) of the ascending sort; p50
is the rounded median; p25 is the element at index n/4 of the ascending sort. -/
theorem claim5_amended (L : List ℤ) (pc : Percs)
    (hpc : sizePercentilesFun L = some pc) :
    (100 ≤ L.length → pc.p90 = pyRound (interpVal (sortAsc L) 100
        ((90 * (L.length + 1)) / 100) ((90 * (L.length + 1)) % 100))) ∧
    (L.length < 100 → pc.p90 = listMax (sortAsc L)) ∧
    (4 ≤ L.length → pc.p75 = pyRound (interpVal (sortAsc L) 4
        ((3 * (L.length + 1)) / 4) ((3 * (L.length + 1)) % 4))) ∧
    (L.length < 4 → pc.p75 = (sortAsc L).getD (L.length - 2) 0) ∧
    pc.p50 = pyRound (medianQ (sortAsc L)) ∧
    pc.p25 = (sortAsc L).getD (L.length / 4) 0 := by
  have hL : L ≠ [] := by
    intro h
    rw [h] at hpc
    exact Option.noConfusion hpc
  rw [sizePercentilesFun_some hL] at hpc
  obtain rfl := Option.some.inj hpc
  have hlen := sortAsc_length L
  refine ⟨fun h100 => ?_, fun h100 => ?_, fun h4 => ?_, fun h4 => ?_, rfl, ?_⟩
  · dsimp only
    rw [if_pos (by omega), quantileExc_eq_interp _ 100 90 (by omega) (by omega), hlen]
  · dsimp only
    rw [if_neg (by omega)]
  · dsimp only
    rw [if_pos (by omega), quantileExc_eq_interp _ 4 3 (by omega) (by omega), hlen]
  · dsimp only
    rw [if_neg (by omega), hlen]
  · dsimp only
    rw [hlen]

/-- Witness for C5 on the two-sample list [5, 7]. -/
theorem claim5_witness :
    sizePercentilesFun [(5:ℤ), 7] = some ⟨7, 5, 6, 5, 5, 7⟩ ∧
    (⟨7, 5, 6, 5, 5, 7⟩ : Percs).p50 = pyRound (medianQ (sortAsc [(5:ℤ), 7])) :=
  ⟨by decide, (claim5_amended [5, 7] ⟨7, 5, 6, 5, 5, 7⟩ (by decide)).2.2.2.2.1⟩

-- ---------------------------------------------------------------------------
-- Claim C8: the size map
-- ---------------------------------------------------------------------------

/-- C8 counterexample: for spans of sizes 1, 10, 10, 20 the profile assigns
p50 = 10, and the below-median size 1 is present in `size_map` mapped to "P",
not absent as the claim states. -/
theorem claim8_counterexample :
    assocLookup (profSizeMap (buildStyleProfile exBelowMedian)) 1 = some "P" ∧
    (profPercs (buildStyleProfile exBelowMedian)).map (fun pc => pc.p50) = some 10 ∧
    (1:ℤ) < 10 := by
  refine ⟨by decide, by decide, by decide⟩

/-- C8 amended: in a profile built from spans with positive sizes, every
distinct observed rounded size is a key of `size_map`, mapped to H1 if at
least p90, else H2 if at least p75, else H3 if at least p50, else "P" (the
below-median sizes are present with an explicit "P", not absent); sizes never
observed are absent from the map. -/
theorem claim8_amended (spans : List Span) (p : ProfileData) (pc : Percs)
    (hb : buildStyleProfile spans = some p) (hpc : p.sizePercentiles = some pc)
    (hpos : ∀ s ∈ spans, ∀ q, s.size = some q → 0 < q) (z : ℤ) :
    assocLookup p.sizeMap z =
      (if z ∈ collectSizes spans then
        some (if pc.p90 ≤ z then "H1" else if pc.p75 ≤ z then "H2"
              else if pc.p50 ≤ z then "H3" else "P")
      else none) := by
  have hne : spans ≠ [] := by
    intro h
    rw [h] at hb
    exact Option.noConfusion hb
  have hE : spans.isEmpty = false := by
    cases spans with
    | nil => exact absurd rfl hne
    | cons a t => rfl
  obtain ⟨hperc, hmap, _⟩ := buildStyleProfile_fields hE hb
  have hpcs : sizePercentilesFun (collectSizes spans) = some pc := by rw [← hperc, hpc]
  rw [hpcs] at hmap
  rw [hmap, assocLookup_mapSelf]
  by_cases hz : z ∈ collectSizes spans
  · rw [if_pos (mem_distinctDesc.mpr hz), if_pos hz]
    have hLne : collectSizes spans ≠ [] := List.ne_nil_of_mem hz
    obtain ⟨h90, h75, h50⟩ := percPos hLne (collectSizes_pos hpos) hpcs
    unfold thresholdRole
    simp only [ne_eq, show pc.p90 ≠ 0 by omega, not_false_eq_true, true_and,
      show pc.p75 ≠ 0 by omega, show pc.p50 ≠ 0 by omega]
  · rw [if_neg (fun hmem => hz (mem_distinctDesc.mp hmem)), if_neg hz]

/-- Witness for C8 at size 1 of the concrete profile. -/
theorem claim8_witness :
    assocLookup ((buildStyleProfile exBelowMedian).getD dummyProfile).sizeMap 1 =
      (if (1:ℤ) ∈ collectSizes exBelowMedian then
        some (if (((buildStyleProfile exBelowMedian).getD
                dummyProfile).sizePercentiles.getD ⟨0,0,0,0,0,0⟩).p90 ≤ 1 then "H1"
          else if (((buildStyleProfile exBelowMedian).getD
                dummyProfile).sizePercentiles.getD ⟨0,0,0,0,0,0⟩).p75 ≤ 1 then "H2"
          else if (((buildStyleProfile exBelowMedian).getD
                dummyProfile).sizePercentiles.getD ⟨0,0,0,0,0,0⟩).p50 ≤ 1 then "H3"
          else "P")
      else none) :=
  claim8_amended exBelowMedian _ _ rfl rfl
    (fun s hs q hq => by
      simp only [exBelowMedian, List.mem_cons, List.not_mem_nil, or_false] at hs
      rcases hs with rfl | rfl | rfl | rfl <;>
        (have h2 := Option.some.inj hq; rw [← h2]; norm_num)) 1

-- ---------------------------------------------------------------------------
-- Claim C1: heading-rule ordering
-- ---------------------------------------------------------------------------

/-- C1 counterexample: on two spans of sizes 10 and 20 the built heading
rules carry min sizes [20, 10, 15], which are not non-increasing (the level-2
threshold falls back to the smaller of the two sizes while the level-3
threshold is the rounded median 15). -/
theorem claim1_counterexample :
    (profRules (buildStyleProfile exTwoSizes)).map (fun r => r.minSize) = [20, 10, 15] ∧
    ¬ List.Chain' (fun a b : ℤ => b ≤ a) [(20:ℤ), 10, 15] := by
  constructor
  · decide
  · intro h
    rw [List.chain'_cons, List.chain'_cons] at h
    exact absurd h.2.1 (by decide)

/-- C1 amended: for spans with positive sizes, the built heading rules have
strictly increasing levels 1, 2, 3, and their min sizes are non-increasing
whenever the number of collected rounded sizes is not exactly two (with
exactly two collected sizes the level-2 fallback can drop below the level-3
median, as the counterexample shows). -/
theorem claim1_amended (spans : List Span)
    (hpos : ∀ s ∈ spans, ∀ q, s.size = some q → 0 < q)
    (hn : (collectSizes spans).length ≠ 2) :
    List.Chain' (fun a b : ℤ => a < b)
      ((profRules (buildStyleProfile spans)).map (fun r => r.level)) ∧
    List.Chain' (fun a b : ℤ => b ≤ a)
      ((profRules (buildStyleProfile spans)).map (fun r => r.minSize)) := by
  by_cases hsp : spans = []
  · subst hsp
    exact ⟨List.chain'_nil, List.chain'_nil⟩
  · have hE : spans.isEmpty = false := by
      cases spans with
      | nil => exact absurd rfl hsp
      | cons a t => rfl
    have hbe : ∃ p, buildStyleProfile spans = some p := by
      simp only [buildStyleProfile, hE, Bool.false_eq_true, if_false]
      exact ⟨_, rfl⟩
    obtain ⟨p, hb⟩ := hbe
    obtain ⟨_, _, hrules⟩ := buildStyleProfile_fields hE hb
    rw [show profRules (buildStyleProfile spans) = p.headingRules by rw [hb]; rfl, hrules]
    rcases hpcs : sizePercentilesFun (collectSizes spans) with _ | pc
    · exact ⟨List.chain'_nil, List.chain'_nil⟩
    · dsimp only
      have hLne : collectSizes spans ≠ [] := by
        intro h0
        rw [h0] at hpcs
        exact Option.noConfusion hpcs
      obtain ⟨h90, h75, h50⟩ := percPos hLne (collectSizes_pos hpos) hpcs
      obtain ⟨hc1, hc2⟩ := percChain hLne hn hpcs
      rw [if_pos (show pc.p90 ≠ 0 by omega), if_pos (show pc.p75 ≠ 0 by omega),
          if_pos (show pc.p50 ≠ 0 by omega)]
      constructor
      · simp only [List.map_cons, List.map_nil]
        rw [List.chain'_cons, List.chain'_cons]
        exact ⟨by decide, by decide, List.chain'_singleton _⟩
      · simp only [List.map_cons, List.map_nil]
        rw [List.chain'_cons, List.chain'_cons]
        exact ⟨hc2, hc1, List.chain'_singleton _⟩

/-- Witness for C1 on a single span of size 10. -/
theorem claim1_witness :
    ((collectSizes [(⟨1, none, some 10, some "x"⟩ : Span)]).length ≠ 2) ∧
    List.Chain' (fun a b : ℤ => a < b)
      ((profRules (buildStyleProfile [⟨1, none, some 10, some "x"⟩])).map
        (fun r => r.level)) ∧
    List.Chain' (fun a b : ℤ => b ≤ a)
      ((profRules (buildStyleProfile [⟨1, none, some 10, some "x"⟩])).map
        (fun r => r.minSize)) := by
  have h := claim1_amended [⟨1, none, some 10, some "x"⟩]
    (fun s hs q hq => by
      simp only [List.mem_singleton] at hs
      subst hs
      have h2 := Option.some.inj hq
      rw [← h2]
      norm_num)
    (by decide)
  exact ⟨by decide, h.1, h.2⟩

-- ---------------------------------------------------------------------------
-- Claim C2: monotonicity of role inference in size
-- ---------------------------------------------------------------------------

/-- C2: against any profile built by the profiler, if two spans both receive
heading roles and the first has the strictly larger rounded size, then the
first receives a heading level that is at most the level of the second
(larger text never gets a deeper heading level). -/
theorem claim2_monotonic (spans : List Span) (A B : Span) (za zb : ℤ)
    (ha : roundSize A.size = some za) (hbz : roundSize B.size = some zb) (hab : zb < za)
    (hHA : leadsWith "H".toList
      (inferRoleForSpan A (buildStyleProfile spans)).toList = true)
    (hHB : leadsWith "H".toList
      (inferRoleForSpan B (buildStyleProfile spans)).toList = true) :
    parseLevel (inferRoleForSpan A (buildStyleProfile spans)) ≤
      parseLevel (inferRoleForSpan B (buildStyleProfile spans)) := by
  rcases hbp : buildStyleProfile spans with _ | p
  · rw [hbp, inferRole_none] at hHA
    exact absurd hHA (by decide)
  · rcases hpc : p.sizePercentiles with _ | pc
    · -- no percentiles: rules and map are empty, every role is "P"
      have hne : spans ≠ [] := by
        intro h
        rw [h] at hbp
        exact Option.noConfusion hbp
      have hE : spans.isEmpty = false := by
        cases spans with
        | nil => exact absurd rfl hne
        | cons a t => rfl
      obtain ⟨hperc, hmap, hrules⟩ := buildStyleProfile_fields hE hbp
      rw [hperc] at hpc
      rw [hpc] at hmap hrules
      dsimp only at hmap hrules
      have hPA : inferRoleForSpan A (some p) = "P" := by
        unfold inferRoleForSpan
        rw [ha]
        dsimp only
        by_cases h0 : za = 0
        · rw [if_pos h0]
        · rw [if_neg h0, hrules, hmap]
          rfl
      rw [hbp, hPA] at hHA
      exact absurd hHA (by decide)
    · by_cases h0a : za = 0
      · rw [hbp, inferRole_zero (h0a ▸ ha) (some p)] at hHA
        exact absurd hHA (by decide)
      · by_cases h0b : zb = 0
        · rw [hbp, inferRole_zero (h0b ▸ hbz) (some p)] at hHB
          exact absurd hHB (by decide)
        · rw [hbp] at hHA hHB
          rw [inferRole_built_eq hbp hpc ha h0a] at hHA ⊢
          rw [inferRole_built_eq hbp hpc hbz h0b] at hHB ⊢
          generalize hm1 : (if pc.p90 ≠ 0 then pc.p90
            else listMax (collectSizes spans)) = M1 at hHA hHB ⊢
          generalize hm2 : (if pc.p75 ≠ 0 then pc.p75 else pc.p50) = M2 at hHA hHB ⊢
          generalize hm3 : (if pc.p50 ≠ 0 then pc.p50 else pc.p25) = M3 at hHA hHB ⊢
          split_ifs at hHA hHB ⊢ <;>
            first
              | decide
              | omega
              | exact absurd hHA (by decide)
              | exact absurd hHB (by decide)

/-- Witness for C2 against the profile of two spans of sizes 10 and 20: the
span of size 25 is H1 and the span of size 12 is H2, with levels 1 and 2. -/
theorem claim2_witness :
    roundSize (⟨1, none, some 25, some "x"⟩ : Span).size = some 25 ∧
    (12:ℤ) < 25 ∧
    parseLevel (inferRoleForSpan ⟨1, none, some 25, some "x"⟩
        (buildStyleProfile exTwoSizes)) ≤
      parseLevel (inferRoleForSpan ⟨1, none, some 12, some "y"⟩
        (buildStyleProfile exTwoSizes)) :=
  ⟨by decide, by decide,
   claim2_monotonic exTwoSizes ⟨1, none, some 25, some "x"⟩ ⟨1, none, some 12, some "y"⟩
     25 12 (by decide) (by decide) (by decide) (by decide) (by decide)⟩

end Papermorph
